import Mathlib

/-!
Shallow embedding of the `counter` package (`internal/counter.go`): a named
counter stored in a relational table through the gorm ORM.

The Go `Counter` struct embeds `gorm.Model`, so each row carries a surrogate
primary key `ID` and a soft-delete marker `DeletedAt`; `Name` carries a
`not null;unique` column constraint and `Value` is a `uint32`.  We model the
table as a list of rows.  The created/updated timestamps of `gorm.Model` are
bookkeeping only and are not modelled; `DeletedAt` is modelled as the Boolean
`deleted` (null / not null).

Operational semantics captured from the source and from gorm's documented
behaviour of the clauses the source uses:
* `CreateCounter` inserts a fresh row with `Value = 0`; the insert fails with
  a uniqueness violation if any row (active or soft-deleted) has that name,
  because the plain unique index on `name` counts soft-deleted rows.
* `Next` runs `Where("name = ?", name).First(&counter)` — gorm's `First`
  excludes soft-deleted rows — then `counter.Value++` (Go `uint32` wraparound
  arithmetic, i.e. modulo 2^32) and `tx.Save(&counter)`, an update keyed on
  the primary key.
* `DeleteCounter` runs `Where("name = ?", name).Delete(&Counter{})`: a soft
  delete that marks the matching active rows deleted and reports no error
  when nothing matches.
A failed operation leaves the persisted state unchanged.
-/

deriving instance DecidableEq for Except

namespace CounterSpec

/-- Modulus of Go's `uint32` arithmetic. -/
def U32 : Nat := 2 ^ 32

/-- One table row: primary key `id` (from `gorm.Model`), the unique `name`,
the `uint32` payload `value`, and the soft-delete marker `deleted`
(`DeletedAt` null / not null). -/
structure Counter where
  id : Nat
  name : String
  value : Nat
  deleted : Bool
deriving DecidableEq, Repr

/-- The counters table. -/
abbrev DB := List Counter

/-- Error taxonomy of the operator (§7 of the spec): uniqueness violation on
create, record-not-found on next.  Store-level failures (connectivity, lock
waits) are outside the sequential model. -/
inductive CtrError where
  | duplicateName
  | notFound
deriving DecidableEq, Repr

/-- Row matches the `WHERE name = ?` predicate (any row, deleted or not);
this is what the unique index on `name` constrains. -/
def rowNamed (n : String) (r : Counter) : Bool :=
  r.name == n

/-- Row matches `WHERE name = ?` and is not soft-deleted: the rows visible
to gorm's default-scoped queries such as the `First` inside `Next`. -/
def activeNamed (n : String) (r : Counter) : Bool :=
  r.name == n && !r.deleted

/-- The active (non-soft-deleted) row named `n`, if any. -/
def findActive (db : DB) (n : String) : Option Counter :=
  db.find? (activeNamed n)

/-- Whether any row — active or soft-deleted — carries name `n`; the unique
column constraint rejects an insert exactly when this holds. -/
def nameTaken (db : DB) (n : String) : Bool :=
  db.any (rowNamed n)

/-- A fresh surrogate key for an insert: one past the largest id in use. -/
def freshId (db : DB) : Nat :=
  (db.map Counter.id).foldr max 0 + 1

/-- The operator call `CreateCounter`: insert a row with value 0; the unique index
on `name` makes the insert fail if any row (even soft-deleted) has the name. -/
def CreateCounter (db : DB) (n : String) : Except CtrError (Counter × DB) :=
  if nameTaken db n then
    .error .duplicateName
  else
    let c : Counter := ⟨freshId db, n, 0, false⟩
    .ok (c, db ++ [c])

/-- The Go statement `counter.Value++` on a `uint32`: increment modulo 2^32. -/
def bump (r : Counter) : Counter :=
  { r with value := (r.value + 1) % U32 }

/-- The gorm call `tx.Save(&counter)`: update the row keyed on the primary key. -/
def saveById (db : DB) (r : Counter) : DB :=
  db.map fun s => if s.id = r.id then r else s

/-- The operator call `Next`: locked read of the active row named `n` (`First` returns
record-not-found when no active row matches), increment, save. -/
def Next (db : DB) (n : String) : Except CtrError (Counter × DB) :=
  match findActive db n with
  | none => .error .notFound
  | some r => .ok (bump r, saveById db (bump r))

/-- The operator call `DeleteCounter`: gorm soft delete — mark the matching active rows
deleted; no error is reported when nothing matches. -/
def DeleteCounter (db : DB) (n : String) : Except CtrError DB :=
  .ok (db.map fun r => if activeNamed n r then { r with deleted := true } else r)

/-- Persisted state after a `CreateCounter` call; a failed call leaves the
state unchanged. -/
def CreateCounterState (db : DB) (n : String) : DB :=
  match CreateCounter db n with
  | .ok (_, db') => db'
  | .error _ => db

/-- Persisted state after a `Next` call; a failed call leaves the state
unchanged. -/
def NextState (db : DB) (n : String) : DB :=
  match Next db n with
  | .ok (_, db') => db'
  | .error _ => db

/-- Persisted state after a `DeleteCounter` call. -/
def DeleteCounterState (db : DB) (n : String) : DB :=
  match DeleteCounter db n with
  | .ok db' => db'
  | .error _ => db

/-- The value `Next` returns to the caller, if it succeeds. -/
def NextValue? (db : DB) (n : String) : Option Nat :=
  match Next db n with
  | .ok (c, _) => some c.value
  | .error _ => none

/-- The value of the active counter named `n`, if one exists. -/
def activeValue (db : DB) (n : String) : Option Nat :=
  (findActive db n).map Counter.value

/-- Run `k` sequential committed `Next` calls against name `n`. -/
def NextIter (n : String) (k : Nat) (db : DB) : DB :=
  (fun d => NextState d n)^[k] db

/-- One operator call, for stating frame and invariant properties. -/
inductive CtrOp where
  | create (n : String)
  | next (n : String)
  | delete (n : String)

/-- Persisted state after one committed operator call. -/
def applyOp (db : DB) : CtrOp → DB
  | .create n => CreateCounterState db n
  | .next n => NextState db n
  | .delete n => DeleteCounterState db n

/-- Schema invariants the store enforces on every reachable table: the
surrogate keys are pairwise distinct (primary key), the names are pairwise
distinct (unique column index, counting soft-deleted rows), and every value
fits in a `uint32`. -/
def WF (db : DB) : Prop :=
  (db.map Counter.id).Nodup ∧ (db.map Counter.name).Nodup ∧
    ∀ r ∈ db, r.value < U32

instance (db : DB) : Decidable (WF db) := by
  unfold WF; infer_instance

/-! ### Generic `find?` lemmas -/

/-- Mapping a function that fixes every element satisfying the predicate and
preserves the predicate's verdict does not change `find?`. -/
theorem find?_map_fix {α : Type _} (p : α → Bool) (g : α → α) (l : List α)
    (h : ∀ s ∈ l, p (g s) = p s ∧ (p s = true → g s = s)) :
    (l.map g).find? p = l.find? p := by
  induction l with
  | nil => rfl
  | cons hd tl ih =>
    have hhd := h hd (List.mem_cons_self hd tl)
    by_cases hp : p hd = true
    · rw [List.map_cons, List.find?_cons_of_pos _ (by rw [hhd.1]; exact hp),
        List.find?_cons_of_pos _ hp, hhd.2 hp]
    · rw [List.map_cons, List.find?_cons_of_neg _ (by rw [hhd.1]; exact hp),
        List.find?_cons_of_neg _ hp]
      exact ih fun s hs => h s (List.mem_cons_of_mem _ hs)

/-- If `find?` finds `r`, and `g` fixes every other element and keeps `g r`
satisfying the predicate, then `find?` on the mapped list finds `g r`. -/
theorem find?_map_found {α : Type _} (p : α → Bool) (g : α → α) (l : List α)
    (r : α) (hr : l.find? p = some r) (hfix : ∀ s ∈ l, s ≠ r → g s = s)
    (hpr : p (g r) = true) :
    (l.map g).find? p = some (g r) := by
  induction l with
  | nil => simp at hr
  | cons hd tl ih =>
    by_cases hp : p hd = true
    · rw [List.find?_cons_of_pos _ hp] at hr
      have hhd : hd = r := by injection hr
      subst hhd
      rw [List.map_cons, List.find?_cons_of_pos _ hpr]
    · rw [List.find?_cons_of_neg _ hp] at hr
      have hne : hd ≠ r := by
        intro e
        exact hp (e ▸ List.find?_some hr)
      rw [List.map_cons, List.find?_cons_of_neg _ (by rw [hfix hd (List.mem_cons_self hd tl) hne]; exact hp)]
      exact ih hr fun s hs hsr => hfix s (List.mem_cons_of_mem _ hs) hsr

/-! ### Characterization of the row lookups -/

theorem findActive_mem {db : DB} {n : String} {r : Counter}
    (h : findActive db n = some r) : r ∈ db :=
  List.mem_of_find?_eq_some h

theorem findActive_name {db : DB} {n : String} {r : Counter}
    (h : findActive db n = some r) : r.name = n := by
  have hp := List.find?_some h
  simp only [activeNamed, Bool.and_eq_true, beq_iff_eq] at hp
  exact hp.1

theorem findActive_not_deleted {db : DB} {n : String} {r : Counter}
    (h : findActive db n = some r) : r.deleted = false := by
  have hp := List.find?_some h
  simp only [activeNamed, Bool.and_eq_true, Bool.not_eq_eq_eq_not, Bool.not_true] at hp
  exact hp.2

theorem nameTaken_of_findActive {db : DB} {n : String} {r : Counter}
    (h : findActive db n = some r) : nameTaken db n = true := by
  rw [nameTaken, List.any_eq_true]
  exact ⟨r, findActive_mem h, by simp [rowNamed, findActive_name h]⟩

theorem findActive_of_not_taken {db : DB} {n : String}
    (h : nameTaken db n = false) : findActive db n = none := by
  rw [nameTaken, List.any_eq_false] at h
  rw [findActive, List.find?_eq_none]
  intro x hx hax
  apply h x hx
  simp only [activeNamed, Bool.and_eq_true, beq_iff_eq] at hax
  simp [rowNamed, hax.1]

/-! ### Behaviour of the three operator calls -/

theorem Next_eq_error {db : DB} {n : String} (h : findActive db n = none) :
    Next db n = .error .notFound ∧ NextState db n = db := by
  refine ⟨by rw [Next, h], ?_⟩
  rw [NextState, Next, h]

theorem Next_eq_ok {db : DB} {n : String} {r : Counter}
    (h : findActive db n = some r) :
    Next db n = .ok (bump r, saveById db (bump r)) ∧
      NextState db n = saveById db (bump r) := by
  refine ⟨by rw [Next, h], ?_⟩
  rw [NextState, Next, h]

/-- With distinct primary keys, the save inside `Next` rewrites exactly the
row that the locked read returned, so the updated row is what a subsequent
lookup of the same name sees. -/
theorem findActive_NextState {db : DB} {n : String} {r : Counter}
    (hids : (db.map Counter.id).Nodup) (h : findActive db n = some r) :
    findActive (NextState db n) n = some (bump r) := by
  rw [(Next_eq_ok h).2, saveById, findActive]
  have hgr : (fun s => if s.id = (bump r).id then bump r else s) r = bump r := by
    simp [bump]
  have := find?_map_found (activeNamed n)
    (fun s => if s.id = (bump r).id then bump r else s) db r h
    (fun s hs hsr => by
      have hne : s.id ≠ (bump r).id := by
        intro e
        exact hsr (List.inj_on_of_nodup_map hids hs (findActive_mem h) e)
      simp [hne])
    (by
      rw [hgr]
      simp [activeNamed, bump, findActive_name h, findActive_not_deleted h])
  rw [this, hgr]

theorem CreateCounter_eq_error {db : DB} {n : String}
    (h : nameTaken db n = true) :
    CreateCounter db n = .error .duplicateName ∧ CreateCounterState db n = db := by
  refine ⟨by rw [CreateCounter, if_pos h], ?_⟩
  rw [CreateCounterState, CreateCounter, if_pos h]

theorem CreateCounter_eq_ok {db : DB} {n : String}
    (h : nameTaken db n = false) :
    CreateCounter db n =
        .ok (⟨freshId db, n, 0, false⟩, db ++ [⟨freshId db, n, 0, false⟩]) ∧
      CreateCounterState db n = db ++ [⟨freshId db, n, 0, false⟩] := by
  constructor
  · rw [CreateCounter, if_neg (by simp [h])]
  · rw [CreateCounterState, CreateCounter, if_neg (by simp [h])]

/-- The freshly inserted row is the active row its name now looks up. -/
theorem findActive_CreateCounterState {db : DB} {n : String}
    (h : nameTaken db n = false) :
    findActive (CreateCounterState db n) n = some ⟨freshId db, n, 0, false⟩ := by
  rw [(CreateCounter_eq_ok h).2, findActive, List.find?_append]
  have hnone : List.find? (activeNamed n) db = none := findActive_of_not_taken h
  rw [hnone]
  simp [activeNamed]

theorem DeleteCounterState_eq (db : DB) (n : String) :
    DeleteCounterState db n =
      db.map fun r => if activeNamed n r then { r with deleted := true } else r := by
  rw [DeleteCounterState, DeleteCounter]

/-- After a delete, no active row named `n` remains. -/
theorem findActive_DeleteCounterState (db : DB) (n : String) :
    findActive (DeleteCounterState db n) n = none := by
  rw [DeleteCounterState_eq, findActive, List.find?_eq_none]
  intro x hx
  rw [List.mem_map] at hx
  obtain ⟨s, _, rfl⟩ := hx
  by_cases ha : activeNamed n s = true
  · rw [if_pos ha]
    simp [activeNamed]
  · rw [if_neg ha]
    exact ha

/-- A soft delete never removes a row, so the set of taken names — what the
unique index constrains — is unchanged. -/
theorem nameTaken_DeleteCounterState (db : DB) (n m : String) :
    nameTaken (DeleteCounterState db n) m = nameTaken db m := by
  rw [DeleteCounterState_eq, nameTaken, List.any_map, nameTaken]
  congr 1
  funext s
  simp only [Function.comp_apply]
  by_cases ha : activeNamed n s = true
  · rw [if_pos ha]
    rfl
  · rw [if_neg ha]

/-! ### Frame lemmas: a call against name `a` does not touch name `b` -/

theorem frame_create {db : DB} {a b : String} (hab : a ≠ b) :
    findActive (CreateCounterState db a) b = findActive db b := by
  by_cases ht : nameTaken db a = true
  · rw [(CreateCounter_eq_error ht).2]
  · have ht' : nameTaken db a = false := by simpa using ht
    rw [(CreateCounter_eq_ok ht').2, findActive, List.find?_append]
    have : List.find? (activeNamed b) [⟨freshId db, a, 0, false⟩] = none := by
      have : (a == b) = false := beq_eq_false_iff_ne.mpr hab
      simp [activeNamed, this]
    rw [this, Option.or_none]
    rfl

theorem frame_next {db : DB} {a b : String}
    (hids : (db.map Counter.id).Nodup) (hab : a ≠ b) :
    findActive (NextState db a) b = findActive db b := by
  cases h : findActive db a with
  | none => rw [(Next_eq_error h).2]
  | some r =>
    rw [(Next_eq_ok h).2, saveById, findActive, findActive]
    apply find?_map_fix
    intro s hs
    by_cases hi : s.id = (bump r).id
    · have hsr : s = r :=
        List.inj_on_of_nodup_map hids hs (findActive_mem h) hi
      subst hsr
      have hname : (s.name == b) = false :=
        beq_eq_false_iff_ne.mpr (by rw [findActive_name h]; exact hab)
      constructor
      · rw [if_pos hi]
        rfl
      · intro hp
        simp [activeNamed, hname] at hp
    · simp [hi]

theorem frame_delete {db : DB} {a b : String} (hab : a ≠ b) :
    findActive (DeleteCounterState db a) b = findActive db b := by
  rw [DeleteCounterState_eq, findActive, findActive]
  apply find?_map_fix
  intro s _
  by_cases ha : activeNamed a s = true
  · have hname : s.name = a := by
      simp only [activeNamed, Bool.and_eq_true, beq_iff_eq] at ha
      exact ha.1
    have hb : (s.name == b) = false :=
      beq_eq_false_iff_ne.mpr (by rw [hname]; exact hab)
    constructor
    · rw [if_pos ha]
      simp [activeNamed, hb]
    · intro hp
      simp [activeNamed, hb] at hp
  · rw [if_neg ha]
    exact ⟨rfl, fun _ => rfl⟩

/-! ### Closed form for iterated `Next` on a single-row table -/

theorem NextState_single (i v : Nat) (n : String) :
    NextState [⟨i, n, v, false⟩] n = [⟨i, n, (v + 1) % U32, false⟩] := by
  have hfind : findActive [⟨i, n, v, false⟩] n = some ⟨i, n, v, false⟩ := by
    simp [findActive, activeNamed]
  rw [(Next_eq_ok hfind).2, saveById, bump]
  simp

theorem NextIter_single (i v : Nat) (n : String) (hv : v < U32) (k : Nat) :
    NextIter n k [⟨i, n, v, false⟩] = [⟨i, n, (v + k) % U32, false⟩] := by
  induction k with
  | zero =>
    simp [NextIter, Nat.mod_eq_of_lt hv]
  | succ k ih =>
    have hstep : NextIter n (k + 1) [⟨i, n, v, false⟩] =
        NextState (NextIter n k [⟨i, n, v, false⟩]) n :=
      Function.iterate_succ_apply' _ k _
    rw [hstep, ih, NextState_single, Nat.mod_add_mod, Nat.add_assoc]

/-! ### The value returned to the caller -/

theorem NextValue?_some {db : DB} {n : String} {r : Counter}
    (h : findActive db n = some r) :
    NextValue? db n = some ((r.value + 1) % U32) := by
  simp only [NextValue?, (Next_eq_ok h).1]
  rfl

theorem NextValue?_none {db : DB} {n : String}
    (h : findActive db n = none) :
    NextValue? db n = none := by
  simp only [NextValue?, (Next_eq_error h).1]

/-! ### Concrete reachable tables -/

/-- The table after creating counter `"n0"` in an empty store. -/
def db0 : DB := CreateCounterState [] "n0"

theorem db0_eq : db0 = [⟨1, "n0", 0, false⟩] := by decide

/-- The table after 2^32 - 1 sequential committed `Next` calls on the fresh
counter: its value sits at the top of the `uint32` range. -/
def dbMax : DB := NextIter "n0" (U32 - 1) db0

theorem dbMax_eq : dbMax = [⟨1, "n0", U32 - 1, false⟩] := by
  rw [dbMax, db0_eq, NextIter_single 1 0 "n0" (by norm_num [U32])]
  norm_num

/-- The table after creating counter `"n0"` in an empty store and then
deleting it: the soft-deleted row remains. -/
def dbDeleted : DB := DeleteCounterState (CreateCounterState [] "n0") "n0"

theorem dbDeleted_eq : dbDeleted = [⟨1, "n0", 0, true⟩] := by decide

/-! ### The claims -/

/-- C1 counterexample: in the reachable table `dbMax` the active counter
named `"n0"` has persisted value 2^32 - 1, yet `Next` returns the value 0,
not (2^32 - 1) + 1: the `uint32` increment wraps, so `Next` does not always
return `v + 1`. -/
theorem C1_counterexample :
    dbMax = NextIter "n0" (U32 - 1) (CreateCounterState [] "n0") ∧
    activeValue dbMax "n0" = some (U32 - 1) ∧
    NextValue? dbMax "n0" = some 0 ∧
    (0 : Nat) ≠ (U32 - 1) + 1 := by
  refine ⟨rfl, ?_, ?_, by norm_num [U32]⟩
  · rw [dbMax_eq]
    rfl
  · rw [dbMax_eq,
      NextValue?_some (r := ⟨1, "n0", U32 - 1, false⟩) (by simp [findActive, activeNamed])]
    norm_num [U32]

/-- C1 (amended): for every active counter named `n` with persisted value
`v`, `Next` returns a counter whose value is `(v + 1) % 2^32` and persists
that value; whenever `v < 2^32 - 1` this value is exactly `v + 1`. -/
theorem C1_next_increments (db : DB) (n : String) (r : Counter)
    (hwf : WF db) (h : findActive db n = some r) :
    NextValue? db n = some ((r.value + 1) % U32) ∧
    activeValue (NextState db n) n = some ((r.value + 1) % U32) ∧
    (r.value < U32 - 1 → (r.value + 1) % U32 = r.value + 1) := by
  refine ⟨NextValue?_some h, ?_, ?_⟩
  · rw [activeValue, findActive_NextState hwf.1 h]
    rfl
  · intro hlt
    have h32 : 0 < U32 := by norm_num [U32]
    exact Nat.mod_eq_of_lt (by omega)

/-- C1 witness: a counter at value 5 steps to 6, returned and persisted. -/
theorem C1_witness :
    WF [⟨1, "n0", 5, false⟩] ∧
    NextValue? [⟨1, "n0", 5, false⟩] "n0" = some 6 ∧
    activeValue (NextState [⟨1, "n0", 5, false⟩] "n0") "n0" = some 6 := by
  have h := C1_next_increments [⟨1, "n0", 5, false⟩] "n0" ⟨1, "n0", 5, false⟩
    (by decide) (by decide)
  have h6 : ((5 : Nat) + 1) % U32 = 6 := by norm_num [U32]
  exact ⟨by decide, h.1.trans (by rw [h6]), h.2.1.trans (by rw [h6])⟩

/-- C2 counterexample: the 2^32-nd sequential committed `Next` call on the
freshly created counter returns 0, not 2^32, so the calls do not return
`1, 2, ..., N` for every `N`. -/
theorem C2_counterexample :
    dbMax = NextIter "n0" (U32 - 1) (CreateCounterState [] "n0") ∧
    NextValue? dbMax "n0" = some 0 ∧
    (0 : Nat) ≠ U32 := by
  refine ⟨rfl, ?_, by norm_num [U32]⟩
  rw [dbMax_eq,
    NextValue?_some (r := ⟨1, "n0", U32 - 1, false⟩) (by simp [findActive, activeNamed])]
  norm_num [U32]

/-- C2 (amended): for a freshly created counter, the (i+1)-st sequential
committed `Next` call returns the value i + 1, for every i with
i + 1 < 2^32 — i.e. the calls return 1, 2, ..., N in call order for every
N < 2^32, with no gaps and no duplicates. -/
theorem C2_sequential (i0 : Nat) (n : String) (i : Nat) (h : i + 1 < U32) :
    NextValue? (NextIter n i [⟨i0, n, 0, false⟩]) n = some (i + 1) := by
  rw [NextIter_single i0 0 n (by norm_num [U32]) i]
  rw [NextValue?_some (r := ⟨i0, n, (0 + i) % U32, false⟩) (by simp [findActive, activeNamed])]
  have : ((0 + i) % U32 + 1) % U32 = i + 1 := by
    rw [Nat.zero_add, Nat.mod_add_mod, Nat.mod_eq_of_lt h]
  rw [this]

/-- C2 witness: the third call on a fresh counter returns 3. -/
theorem C2_witness :
    (2 : Nat) + 1 < U32 ∧
    NextValue? (NextIter "n0" 2 [⟨1, "n0", 0, false⟩]) "n0" = some 3 :=
  ⟨by norm_num [U32], C2_sequential 1 "n0" 2 (by norm_num [U32])⟩

/-- C3: `Next` fails with `NotFound` exactly when no active counter named
`n` exists (never created, or soft-deleted), and in that case the persisted
state is unchanged. -/
theorem C3_next_notFound_iff (db : DB) (n : String) :
    (Next db n = .error .notFound ↔ findActive db n = none) ∧
    (findActive db n = none → NextState db n = db) := by
  refine ⟨⟨?_, fun h => (Next_eq_error h).1⟩, fun h => (Next_eq_error h).2⟩
  intro he
  cases h : findActive db n with
  | none => rfl
  | some r =>
    rw [(Next_eq_ok h).1] at he
    simp at he

/-- C3 witness: on a table whose only row named `"n0"` is soft-deleted,
`Next` fails with `NotFound` and changes nothing. -/
theorem C3_witness :
    (Next [⟨1, "n0", 0, true⟩] "n0" = .error .notFound ↔
      findActive [⟨1, "n0", 0, true⟩] "n0" = none) ∧
    (findActive [⟨1, "n0", 0, true⟩] "n0" = none →
      NextState [⟨1, "n0", 0, true⟩] "n0" = [⟨1, "n0", 0, true⟩]) :=
  C3_next_notFound_iff [⟨1, "n0", 0, true⟩] "n0"

/-- C4 counterexample: in the reachable table `dbDeleted` (create `"n0"`,
then delete it) no active counter named `"n0"` exists, yet `CreateCounter`
fails: the unique index still counts the soft-deleted row. -/
theorem C4_counterexample :
    dbDeleted = DeleteCounterState (CreateCounterState [] "n0") "n0" ∧
    findActive dbDeleted "n0" = none ∧
    CreateCounter dbDeleted "n0" = .error .duplicateName := by
  refine ⟨rfl, ?_, ?_⟩ <;> rw [dbDeleted_eq] <;> decide

/-- C4 (amended): when no row named `n` exists at all — neither active nor
soft-deleted — `CreateCounter` succeeds, returns a counter named `n` with
value 0, and the persisted active row for `n` has value 0.  (A leftover
soft-deleted row named `n` makes creation fail instead.) -/
theorem C4_create_fresh (db : DB) (n : String) (h : nameTaken db n = false) :
    CreateCounter db n =
      .ok (⟨freshId db, n, 0, false⟩, db ++ [⟨freshId db, n, 0, false⟩]) ∧
    activeValue (CreateCounterState db n) n = some 0 := by
  refine ⟨(CreateCounter_eq_ok h).1, ?_⟩
  rw [activeValue, findActive_CreateCounterState h]
  rfl

/-- C4 witness: creating `"n0"` in the empty table succeeds with value 0. -/
theorem C4_witness :
    nameTaken [] "n0" = false ∧
    CreateCounter [] "n0" = .ok (⟨1, "n0", 0, false⟩, [⟨1, "n0", 0, false⟩]) ∧
    activeValue (CreateCounterState [] "n0") "n0" = some 0 := by
  have h := C4_create_fresh [] "n0" (by decide)
  exact ⟨by decide, h.1, h.2⟩

/-- C5: when an active counter named `n` exists, `CreateCounter` fails with
the duplicate-name error and leaves the persisted state unchanged. -/
theorem C5_create_duplicate (db : DB) (n : String) (r : Counter)
    (h : findActive db n = some r) :
    CreateCounter db n = .error .duplicateName ∧ CreateCounterState db n = db :=
  CreateCounter_eq_error (nameTaken_of_findActive h)

/-- C5 witness: creating `"n0"` again over an active `"n0"` row fails. -/
theorem C5_witness :
    findActive [⟨1, "n0", 4, false⟩] "n0" = some ⟨1, "n0", 4, false⟩ ∧
    CreateCounter [⟨1, "n0", 4, false⟩] "n0" = .error .duplicateName ∧
    CreateCounterState [⟨1, "n0", 4, false⟩] "n0" = [⟨1, "n0", 4, false⟩] := by
  have h := C5_create_duplicate [⟨1, "n0", 4, false⟩] "n0" ⟨1, "n0", 4, false⟩ (by decide)
  exact ⟨by decide, h.1, h.2⟩

/-- C6: `DeleteCounter` reports no error — also when no active counter
named `n` exists, since the soft delete marks whatever matches — and a
`Next` call against `n` right after the delete fails with `NotFound`. -/
theorem C6_delete_idempotent (db : DB) (n : String) :
    (DeleteCounter db n).isOk = true ∧
    Next (DeleteCounterState db n) n = .error .notFound :=
  ⟨rfl, (Next_eq_error (findActive_DeleteCounterState db n)).1⟩

/-- C7: a `CreateCounter`, `Next` or `DeleteCounter` call against name `a`
leaves the active counter named `b` — its existence, name and value —
unchanged, for every distinct pair of names. -/
theorem C7_frame (db : DB) (a b : String) (hwf : WF db) (hab : a ≠ b) :
    findActive (CreateCounterState db a) b = findActive db b ∧
    findActive (NextState db a) b = findActive db b ∧
    findActive (DeleteCounterState db a) b = findActive db b :=
  ⟨frame_create hab, frame_next hwf.1 hab, frame_delete hab⟩

/-- C7 witness: a `Next` call on `"n0"` leaves the `"n1"` row alone. -/
theorem C7_witness :
    WF [⟨1, "n0", 0, false⟩, ⟨2, "n1", 7, false⟩] ∧
    findActive (NextState [⟨1, "n0", 0, false⟩, ⟨2, "n1", 7, false⟩] "n0") "n1" =
      findActive [⟨1, "n0", 0, false⟩, ⟨2, "n1", 7, false⟩] "n1" :=
  ⟨by decide, (C7_frame [⟨1, "n0", 0, false⟩, ⟨2, "n1", 7, false⟩] "n0" "n1"
    (by decide) (by decide)).2.1⟩

/-- C8 counterexample: in the reachable table `dbMax` the active counter
`"n0"` holds 2^32 - 1 and a committed `Next` call drops its persisted value
to 0 — an operation does make the value of an active counter smaller. -/
theorem C8_counterexample :
    dbMax = NextIter "n0" (U32 - 1) (CreateCounterState [] "n0") ∧
    activeValue dbMax "n0" = some (U32 - 1) ∧
    activeValue (NextState dbMax "n0") "n0" = some 0 ∧
    (0 : Nat) < U32 - 1 := by
  refine ⟨rfl, ?_, ?_, by norm_num [U32]⟩
  · rw [dbMax_eq]
    rfl
  · rw [dbMax_eq, NextState_single]
    have : (U32 - 1 + 1) % U32 = 0 := by norm_num [U32]
    rw [this]
    rfl

/-- C8 (amended): below the `uint32` boundary the value of an active
counter is monotone: for any single operator call, if the counter named `m`
is active with value `v < 2^32 - 1` before and active with value `w` after,
then `v ≤ w`; and the value changes only via a `Next` call on `m` itself,
which yields exactly `w = v + 1`.  (At `v = 2^32 - 1` the increment wraps
to 0, so unconditional monotonicity fails — see the counterexample.) -/
theorem C8_value_monotone (db : DB) (op : CtrOp) (m : String) (v w : Nat)
    (hwf : WF db) (hv : activeValue db m = some v)
    (hw : activeValue (applyOp db op) m = some w) (hlt : v < U32 - 1) :
    v ≤ w ∧ (w ≠ v → op = .next m ∧ w = v + 1) := by
  obtain ⟨r, hr, hrv⟩ : ∃ r, findActive db m = some r ∧ r.value = v := by
    rw [activeValue] at hv
    cases hfr : findActive db m with
    | none => rw [hfr] at hv; simp at hv
    | some r => rw [hfr] at hv; exact ⟨r, rfl, by simpa using hv⟩
  cases op with
  | create n =>
    simp only [applyOp] at hw
    have hfix : findActive (CreateCounterState db n) m = findActive db m := by
      by_cases hnm : n = m
      · subst hnm
        rw [(CreateCounter_eq_error (nameTaken_of_findActive hr)).2]
      · exact frame_create hnm
    have hwv : w = v := by
      rw [activeValue, hfix, ← activeValue, hv] at hw
      exact (Option.some.inj hw).symm
    subst hwv
    exact ⟨Nat.le_refl _, fun hne => absurd rfl hne⟩
  | next n =>
    simp only [applyOp] at hw
    by_cases hnm : n = m
    · subst hnm
      rw [activeValue, findActive_NextState hwf.1 hr] at hw
      have hwv : w = (r.value + 1) % U32 := by
        simp only [Option.map_some'] at hw
        exact (Option.some.inj hw).symm
      have h32 : 0 < U32 := by norm_num [U32]
      rw [hrv, Nat.mod_eq_of_lt (by omega)] at hwv
      subst hwv
      exact ⟨Nat.le_succ v, fun _ => ⟨rfl, rfl⟩⟩
    · have hwv : w = v := by
        rw [activeValue, frame_next hwf.1 hnm, ← activeValue, hv] at hw
        exact (Option.some.inj hw).symm
      subst hwv
      exact ⟨Nat.le_refl _, fun hne => absurd rfl hne⟩
  | delete n =>
    simp only [applyOp] at hw
    by_cases hnm : n = m
    · subst hnm
      rw [activeValue, findActive_DeleteCounterState db n] at hw
      simp at hw
    · have hwv : w = v := by
        rw [activeValue, frame_delete hnm, ← activeValue, hv] at hw
        exact (Option.some.inj hw).symm
      subst hwv
      exact ⟨Nat.le_refl _, fun hne => absurd rfl hne⟩

/-- C8 witness: a `Next` call on a counter at 3 moves it to exactly 4. -/
theorem C8_witness :
    (3 : Nat) ≤ 4 ∧
    ((4 : Nat) ≠ 3 → CtrOp.next "n0" = CtrOp.next "n0" ∧ (4 : Nat) = 3 + 1) :=
  C8_value_monotone [⟨1, "n0", 3, false⟩] (.next "n0") "n0" 3 4
    (by decide) (by decide) (by decide) (by decide)

/-- C9 counterexample: `DeleteCounter` on a name with no counter at all
succeeds (it is idempotent), and the subsequent `CreateCounter` with that
name then succeeds instead of failing with a uniqueness violation. -/
theorem C9_counterexample :
    (DeleteCounter ([] : DB) "n0").isOk = true ∧
    DeleteCounterState ([] : DB) "n0" = [] ∧
    CreateCounter (DeleteCounterState ([] : DB) "n0") "n0" =
      .ok (⟨1, "n0", 0, false⟩, [⟨1, "n0", 0, false⟩]) := by
  decide

/-- C9 (amended): after `DeleteCounter` on a name that has an active
counter, the row is retained with the deleted marker set (soft delete), and
since the unique constraint on `name` counts soft-deleted rows, a
subsequent `CreateCounter` with that name fails with the
uniqueness-violation error: such a deleted name cannot be reused. -/
theorem C9_no_reuse (db : DB) (n : String) (r : Counter)
    (h : findActive db n = some r) :
    { r with deleted := true } ∈ DeleteCounterState db n ∧
    CreateCounter (DeleteCounterState db n) n = .error .duplicateName := by
  constructor
  · rw [DeleteCounterState_eq]
    have hp : activeNamed n r = true := List.find?_some h
    have hgr : (fun s => if activeNamed n s then { s with deleted := true } else s) r
        = { r with deleted := true } := if_pos hp
    exact hgr ▸ List.mem_map_of_mem _ (findActive_mem h)
  · refine (CreateCounter_eq_error ?_).1
    rw [nameTaken_DeleteCounterState]
    exact nameTaken_of_findActive h

/-- C9 witness: delete an active `"n0"` at value 2, then re-create fails. -/
theorem C9_witness :
    findActive [⟨1, "n0", 2, false⟩] "n0" = some ⟨1, "n0", 2, false⟩ ∧
    (⟨1, "n0", 2, true⟩ : Counter) ∈ DeleteCounterState [⟨1, "n0", 2, false⟩] "n0" ∧
    CreateCounter (DeleteCounterState [⟨1, "n0", 2, false⟩] "n0") "n0" =
      .error .duplicateName := by
  have h := C9_no_reuse [⟨1, "n0", 2, false⟩] "n0" ⟨1, "n0", 2, false⟩ (by decide)
  exact ⟨by decide, h.1, h.2⟩

/-- C10: the counter value is a `uint32` incremented with wraparound
arithmetic: when the active counter named `n` holds 2^32 - 1, a successful
`Next` returns and persists the value 0 — increment modulo 2^32 — so
monotonicity fails at the representation boundary (the persisted value
drops from 2^32 - 1, which is positive, to 0). -/
theorem C10_wraparound (db : DB) (n : String) (r : Counter)
    (hwf : WF db) (h : findActive db n = some r) (hv : r.value = U32 - 1) :
    NextValue? db n = some 0 ∧
    activeValue (NextState db n) n = some 0 ∧
    0 < r.value := by
  have h0 : (r.value + 1) % U32 = 0 := by rw [hv]; norm_num [U32]
  refine ⟨?_, ?_, by rw [hv]; norm_num [U32]⟩
  · rw [NextValue?_some h, h0]
  · rw [activeValue, findActive_NextState hwf.1 h]
    simp [bump, h0]

/-- C10 witness: on a table whose `"n0"` row holds 2^32 - 1, `Next` returns
and persists 0. -/
theorem C10_witness :
    WF [⟨1, "n0", U32 - 1, false⟩] ∧
    NextValue? [⟨1, "n0", U32 - 1, false⟩] "n0" = some 0 ∧
    activeValue (NextState [⟨1, "n0", U32 - 1, false⟩] "n0") "n0" = some 0 := by
  have h := C10_wraparound [⟨1, "n0", U32 - 1, false⟩] "n0" ⟨1, "n0", U32 - 1, false⟩
    (by decide) (by decide) rfl
  exact ⟨by decide, h.1, h.2.1⟩

end CounterSpec
